import Mathlib

/-!
Shallow embedding of `src/table-block.ts` (tblparse core).

Modelling conventions:
- A spreadsheet cell value (`cell.v` in the source) is a string, number or
  boolean; numbers are modelled as `Int` (the source never computes with
  them, it only string-coerces).  JS `String(v)` is `CellValue.toStr`.
- A cell object may exist with an `undefined` value field (the source
  guards `cell && cell.v !== undefined`), so a `Cell` carries
  `v : Option CellValue` and a sheet lookup returns `Option Cell`.
- A `Sheet` is the xlsx worksheet: a sparse map from 0-based
  (row, column) addresses to cell objects, plus the range decoded from
  `sheet["!ref"]` (`decode_range` yields start `s` and end `e`; the
  detection code uses only `e`).  `XLSX.utils.encode_cell` and the
  `labelColumn + row` string concatenation address the same cells, so a
  column letter is modelled by its 0-based column index (`"A"` = 0).
- The `-1` sentinel for `blockStartRow` in `detectTableBlocks` is
  modelled as `Option Nat` (`none` = `-1`); `createBlock` is invoked by
  the source only with a non-empty row buffer, whose indexing
  `rows[rows.length-1]` is modelled by `getLast?` with default.
- `RegExp` values are modelled abstractly as Boolean predicates on
  strings (`test`).
-/

/-- A defined scalar cell value: string, number or boolean. -/
inductive CellValue where
  | str (s : String)
  | num (n : Int)
  | boolean (b : Bool)
deriving DecidableEq, Repr

/-- JS `String(v)` on a defined cell value. -/
def CellValue.toStr : CellValue → String
  | .str s => s
  | .num n => toString n
  | .boolean b => if b then "true" else "false"

/-- A cell object; `v` is the cell's value, possibly `undefined`. -/
structure Cell where
  v : Option CellValue
deriving DecidableEq, Repr

/-- JS `String(x)` on a possibly-undefined value (`String(undefined)` is
`"undefined"`). -/
def jsString : Option CellValue → String
  | some v => v.toStr
  | none => "undefined"

/-- JS `String.prototype.trim`: strip leading and trailing whitespace.
Modelled structurally over the character list (Lean's own `String.trim`
is defined by well-founded recursion and does not reduce in the
kernel). -/
def jsTrim (s : String) : String :=
  ⟨((s.data.dropWhile Char.isWhitespace).reverse.dropWhile Char.isWhitespace).reverse⟩

/-- An xlsx worksheet: sparse cell lookup by 0-based (row, column), plus
the range decoded from `sheet["!ref"]` (start corner `(refSR, refSC)`,
end corner `(refER, refEC)`, all 0-based). -/
structure Sheet where
  cells : Nat → Nat → Option Cell
  refSR : Nat
  refSC : Nat
  refER : Nat
  refEC : Nat

/-- `BlockRow` of the source: information about a single row in a block. -/
structure BlockRow where
  /-- Row number (1-based). -/
  row : Nat
  /-- Number of columns with data. -/
  columnCount : Nat
  /-- Value in the label column. -/
  labelValue : Option String
deriving DecidableEq, Repr

/-- `TableBlock` of the source: a table candidate block. -/
structure TableBlock where
  /-- Start row (1-based). -/
  startRow : Nat
  /-- End row (1-based, inclusive). -/
  endRow : Nat
  /-- Rows in this block. -/
  rows : List BlockRow
  /-- Maximum column count in this block. -/
  maxColumnCount : Nat
deriving DecidableEq, Repr

/-- `HeaderDetectionOptions` of the source.  `headerPattern` is the
abstract `test` of the regex; `noHeader` being `undefined` and `false`
behave identically under the source's truthiness check, so a plain
`Bool` models it. -/
structure HeaderDetectionOptions where
  headerPattern : Option (String → Bool) := none
  noHeader : Bool := false

/-- The occupancy test of `analyzeRow`:
`cell && cell.v !== undefined && cell.v !== ""`. -/
def cellOccupied : Option Cell → Bool
  | some cell =>
    match cell.v with
    | some v => v ≠ CellValue.str ""
    | none => false
  | none => false

/-- The column-counting loop of `analyzeRow`: the number of occupied
columns among `0 .. maxCol-1` of 1-based `row`. -/
def countOccupiedColumns (sheet : Sheet) (row maxCol : Nat) : Nat :=
  (List.range maxCol).countP (fun col => cellOccupied (sheet.cells (row - 1) col))

/-- `analyzeRow` of the source.  The label cell is
`sheet[labelColumn + row]`, i.e. the cell at 0-based
`(row - 1, labelCol)`. -/
def analyzeRow (sheet : Sheet) (row maxCol labelCol : Nat) : BlockRow :=
  let columnCount := countOccupiedColumns sheet row maxCol
  let labelValue :=
    match sheet.cells (row - 1) labelCol with
    | some labelCell =>
      some (match labelCell.v with
        | some (.str s) => jsTrim s
        | v => jsString v)
    | none => none
  { row := row, columnCount := columnCount, labelValue := labelValue }

/-- `createBlock` of the source; only ever invoked with non-empty
`rows` (`Math.max(...)` and `rows[rows.length - 1]` are defined there). -/
def createBlock (rows : List BlockRow) (startRow : Nat) : TableBlock :=
  { startRow := startRow
    endRow := ((rows.map (fun r => r.row)).getLast?).getD 0
    rows := rows
    maxColumnCount := (rows.map (fun r => r.columnCount)).foldl Nat.max 0 }

/-- State of the scanning loop of `detectTableBlocks`:
`(blocks, currentBlock, blockStartRow)`; `none` models the `-1`
sentinel. -/
abbrev ScanState := List TableBlock × List BlockRow × Option Nat

/-- One iteration of the row loop of `detectTableBlocks`. -/
def stepRow (sheet : Sheet) (labelCol maxCol : Nat) (st : ScanState) (row : Nat) :
    ScanState :=
  let rowInfo := analyzeRow sheet row maxCol labelCol
  if rowInfo.columnCount = 0 then
    -- Empty row → end current block
    if st.2.1.isEmpty then st
    else (st.1 ++ [createBlock st.2.1 (st.2.2.getD 0)], [], none)
  else
    -- Has data → add to block
    (st.1, st.2.1 ++ [rowInfo], if st.2.2.isNone then some row else st.2.2)

/-- `detectTableBlocks` of the source: scan rows `1 .. range.e.r + 1`,
splitting at empty rows; a trailing non-empty buffer is closed after the
scan.  `labelCol` is the 0-based index of the label column
(default `"A"` = 0). -/
def detectTableBlocks (sheet : Sheet) (labelCol : Nat := 0) : List TableBlock :=
  let maxRow := sheet.refER + 1
  let maxCol := sheet.refEC + 1
  let st := (List.range' 1 maxRow).foldl (stepRow sheet labelCol maxCol) ([], [], none)
  if st.2.1.isEmpty then st.1
  else st.1 ++ [createBlock st.2.1 (st.2.2.getD 0)]

/-- `detectTitleRow` of the source.  `block.rows[0]` presupposes the
Table Block invariant `rows ≠ []`; on the empty list the model returns
`none`. -/
def detectTitleRow (block : TableBlock) : Option BlockRow :=
  match block.rows.head? with
  | some firstRow =>
    -- If first row has fewer columns than max, consider it a title
    if firstRow.columnCount < block.maxColumnCount then some firstRow
    else none
  | none => none

/-- The `find` predicate of `detectHeaderRow`:
`r.labelValue && headerPattern.test(r.labelValue)` — JS truthiness makes
an `undefined` or empty-string label fail the test. -/
def labelMatches (headerPattern : String → Bool) (r : BlockRow) : Bool :=
  match r.labelValue with
  | some lv => lv ≠ "" && headerPattern lv
  | none => false

/-- The `dataRows` local of `detectHeaderRow` (the candidate rows:
`titleRow ? block.rows.slice(1) : block.rows`), factored out as a named
definition. -/
def headerCandidateRows (block : TableBlock) : List BlockRow :=
  if (detectTitleRow block).isSome then block.rows.drop 1 else block.rows

/-- `detectHeaderRow` of the source. -/
def detectHeaderRow (block : TableBlock)
    (options : HeaderDetectionOptions := {}) : Option BlockRow :=
  -- Explicitly no header
  if options.noHeader then none
  else if (headerCandidateRows block).isEmpty then none
  else
    match options.headerPattern with
    | some headerPattern =>
      -- Match by regex pattern if provided
      match (headerCandidateRows block).find? (labelMatches headerPattern) with
      | some m => some m
      | none => (headerCandidateRows block).head?
    | none =>
      -- Default: first row after title (or first row if no title)
      (headerCandidateRows block).head?

/-- Result of `analyzeBlockStructure`. -/
structure BlockStructure where
  titleRow : Option BlockRow
  headerRow : Option BlockRow
  dataRows : List BlockRow
deriving DecidableEq, Repr

/-- `analyzeBlockStructure` of the source. -/
def analyzeBlockStructure (block : TableBlock)
    (options : HeaderDetectionOptions := {}) : BlockStructure :=
  let titleRow := detectTitleRow block
  let headerRow := detectHeaderRow block options
  -- Extract data rows (excluding title and header)
  let dataRows := block.rows
  let dataRows :=
    match titleRow with
    | some t => dataRows.filter (fun r => r.row ≠ t.row)
    | none => dataRows
  let dataRows :=
    match headerRow with
    | some h => dataRows.filter (fun r => r.row ≠ h.row)
    | none => dataRows
  { titleRow := titleRow, headerRow := headerRow, dataRows := dataRows }

/-- A parsed workbook, as produced by the external `XLSX.read`:
`SheetNames` (possibly `undefined` — the source guards
`!workbook.SheetNames`) and the `Sheets` dictionary. -/
structure Workbook where
  sheetNames : Option (List String)
  sheets : String → Option Sheet

/-- `loadSheet` of the source, modelled on the parsed workbook (the
parse `XLSX.read(data, { type })` is the external collaborator and is
abstracted away; everything after it is translated).  The thrown
`Error("Workbook contains no sheets")` is the spec's `NoSheetsError`.
`Sheets[SheetNames[0]]` on an inconsistent dictionary is JS `undefined`,
hence the `Option Sheet` payload. -/
def loadSheet (workbook : Workbook) : Except String (Option Sheet) :=
  match workbook.sheetNames with
  | none => .error "Workbook contains no sheets"
  | some names =>
    if names.isEmpty then .error "Workbook contains no sheets"
    else
      match names.head? with
      | some first => .ok (workbook.sheets first)
      | none => .ok none

/-- `extractBlockData` of the source: the double loop over
`row ∈ [startRow, endRow]`, `col ∈ [0, maxColumnCount)`;
`cell?.v !== undefined ? String(cell.v) : ""`. -/
def extractBlockData (sheet : Sheet) (block : TableBlock) : List (List String) :=
  (List.range' block.startRow (block.endRow + 1 - block.startRow)).map (fun row =>
    (List.range block.maxColumnCount).map (fun col =>
      match sheet.cells (row - 1) col with
      | some cell =>
        match cell.v with
        | some v => v.toStr
        | none => ""
      | none => ""))

/-! ### Sample grids used by witnesses and counterexamples -/

/-- A small concrete grid: row 1 = one text cell, row 2 = two numeric
cells, row 3 empty, row 4 = one boolean cell in column B. -/
def sampleSheet : Sheet :=
  { cells := fun r c =>
      if r = 0 && c = 0 then some ⟨some (.str "T")⟩
      else if r = 1 && (c = 0 || c = 1) then some ⟨some (.num 5)⟩
      else if r = 3 && c = 1 then some ⟨some (.boolean true)⟩
      else none
    refSR := 0, refSC := 0, refER := 3, refEC := 1 }

/-- A grid whose only cell, A1, exists with the empty-string value. -/
def emptyLabelSheet : Sheet :=
  { cells := fun r c => if r = 0 && c = 0 then some ⟨some (.str "")⟩ else none
    refSR := 0, refSC := 0, refER := 0, refEC := 0 }

/-! ### C2: title-row rule -/

/-- **C2.** For every block with non-empty rows, `detectTitleRow` returns
the block's first row if and only if that row's `columnCount` is strictly
less than `block.maxColumnCount`, and returns absent otherwise; a
single-row block whose `maxColumnCount` satisfies the Table Block
invariant (it is the maximum `columnCount` over the rows, as computed by
`createBlock`) never has a title. -/
theorem detectTitleRow_spec (block : TableBlock) (first : BlockRow)
    (hfirst : block.rows.head? = some first) :
    (detectTitleRow block =
      if first.columnCount < block.maxColumnCount then some first else none) ∧
    (∀ r : BlockRow, block.rows = [r] →
      block.maxColumnCount =
        (block.rows.map (fun x => x.columnCount)).foldl Nat.max 0 →
      detectTitleRow block = none) := by
  refine ⟨by unfold detectTitleRow; rw [hfirst], ?_⟩
  intro r hr hmax
  unfold detectTitleRow
  rw [hr] at hmax ⊢
  simp only [List.map_cons, List.map_nil, List.foldl_cons, List.foldl_nil,
    Nat.zero_max] at hmax
  simp [hmax]

/-- Witness for C2 at a concrete block: the first row has 1 occupied
column against a block maximum of 3, so it is reported as the title. -/
theorem detectTitleRow_spec_witness :
    detectTitleRow ⟨1, 2, [⟨1, 1, some "t"⟩, ⟨2, 3, none⟩], 3⟩ =
      some ⟨1, 1, some "t"⟩ := by
  have h := (detectTitleRow_spec ⟨1, 2, [⟨1, 1, some "t"⟩, ⟨2, 3, none⟩], 3⟩
    ⟨1, 1, some "t"⟩ rfl).1
  simpa using h

/-! ### C5: extraction rectangularity -/

/-- **C5.** For every grid and every block with `startRow ≤ endRow`,
`extractBlockData` returns exactly `endRow - startRow + 1` rows, each of
exactly `maxColumnCount` strings; the entry at `(i, j)` is the
string-coerced grid value when the cell and its value are defined, and
`""` on any address miss — no error is possible (the function is total). -/
theorem extractBlockData_spec (sheet : Sheet) (block : TableBlock)
    (h : block.startRow ≤ block.endRow) :
    (extractBlockData sheet block).length = block.endRow - block.startRow + 1 ∧
    (∀ rowData ∈ extractBlockData sheet block,
      rowData.length = block.maxColumnCount) ∧
    (∀ i j (hi : i < (extractBlockData sheet block).length)
      (hj : j < ((extractBlockData sheet block).get ⟨i, hi⟩).length),
      ((extractBlockData sheet block).get ⟨i, hi⟩).get ⟨j, hj⟩ =
        match sheet.cells (block.startRow + i - 1) j with
        | some cell =>
          match cell.v with
          | some v => v.toStr
          | none => ""
        | none => "") := by
  refine ⟨?_, ?_, ?_⟩
  · simp only [extractBlockData, List.length_map, List.length_range']
    omega
  · intro rowData hmem
    simp only [extractBlockData, List.mem_map] at hmem
    obtain ⟨row, _, rfl⟩ := hmem
    simp
  · intro i j hi hj
    simp [extractBlockData, List.getElem_range']

/-- Witness for C5 on `sampleSheet` with a 2×2 block. -/
theorem extractBlockData_spec_witness :
    (extractBlockData sampleSheet ⟨1, 2, [], 2⟩).length = 2 := by
  have h := (extractBlockData_spec sampleSheet ⟨1, 2, [], 2⟩ (by decide)).1
  simpa using h

/-! ### C10: extraction is independent of the stored row descriptors -/

/-- **C10.** `extractBlockData` consults only `startRow`, `endRow` and
`maxColumnCount` of the block: two blocks agreeing on those three fields
extract identically, whatever their `rows` fields hold. -/
theorem extractBlockData_ignores_rows (sheet : Sheet) (b1 b2 : TableBlock)
    (hs : b1.startRow = b2.startRow) (he : b1.endRow = b2.endRow)
    (hm : b1.maxColumnCount = b2.maxColumnCount) :
    extractBlockData sheet b1 = extractBlockData sheet b2 := by
  unfold extractBlockData
  rw [hs, he, hm]

/-- Witness for C10: same range and column count, different `rows`. -/
theorem extractBlockData_ignores_rows_witness :
    extractBlockData sampleSheet ⟨1, 2, [⟨1, 1, some "T"⟩, ⟨2, 2, some "5"⟩], 2⟩ =
      extractBlockData sampleSheet ⟨1, 2, [], 2⟩ :=
  extractBlockData_ignores_rows sampleSheet _ _ rfl rfl rfl

/-! ### C9: sheet loading -/

/-- **C9.** `loadSheet` fails with the `NoSheetsError`
(`"Workbook contains no sheets"`) if and only if the parsed workbook
declares zero sheets (`SheetNames` undefined or empty); otherwise it
returns the workbook's first sheet without raising. -/
theorem loadSheet_spec (wb : Workbook) :
    (loadSheet wb = .error "Workbook contains no sheets" ↔
      (wb.sheetNames = none ∨ wb.sheetNames = some [])) ∧
    (∀ n ns, wb.sheetNames = some (n :: ns) →
      loadSheet wb = .ok (wb.sheets n)) := by
  obtain ⟨names, sheets⟩ := wb
  constructor
  · match names with
    | none => simp [loadSheet]
    | some [] => simp [loadSheet]
    | some (n :: ns) => simp [loadSheet]
  · intro n ns h
    simp only at h
    subst h
    simp [loadSheet]

/-- Witness for C9: a one-sheet workbook loads its first sheet. -/
theorem loadSheet_spec_witness :
    loadSheet ⟨some ["Sheet1"], fun _ => none⟩ = .ok none := by
  have h := (loadSheet_spec ⟨some ["Sheet1"], fun _ => none⟩).2 "Sheet1" [] rfl
  simpa using h

/-! ### C7: label value of a row -/

/-- **C7, counterexample.** The claim states `labelValue` is absent iff
the label cell is unoccupied (value undefined or the empty string).  In
`emptyLabelSheet` the label cell A1 exists with value `""`: it is
unoccupied by the source's occupancy test, yet `analyzeRow` yields the
present label `""` (the source tests only `labelCell`'s existence, not
its occupancy). -/
theorem analyzeRow_labelValue_cex :
    cellOccupied (emptyLabelSheet.cells 0 0) = false ∧
    (analyzeRow emptyLabelSheet 1 1 0).labelValue = some "" := by decide

/-- **C7, amended.** `labelValue` is absent iff the label cell object is
absent from the sheet; when the cell object is present, `labelValue` is
present and equals the cell's value trimmed if textual, else its JS
string coercion (in particular `"undefined"` when the cell's value field
is undefined, and `""` — present — when the value is the empty string). -/
theorem analyzeRow_labelValue_spec (sheet : Sheet) (row maxCol labelCol : Nat) :
    ((analyzeRow sheet row maxCol labelCol).labelValue = none ↔
      sheet.cells (row - 1) labelCol = none) ∧
    (∀ cell, sheet.cells (row - 1) labelCol = some cell →
      (analyzeRow sheet row maxCol labelCol).labelValue =
        some (match cell.v with
          | some (.str s) => jsTrim s
          | v => jsString v)) := by
  constructor
  · unfold analyzeRow
    cases h : sheet.cells (row - 1) labelCol <;> simp [h]
  · intro cell hc
    unfold analyzeRow
    simp [hc]

/-- Witness for C7 (amended) at `sampleSheet` row 2: the numeric label
cell coerces to the string `"5"`. -/
theorem analyzeRow_labelValue_spec_witness :
    (analyzeRow sampleSheet 2 2 0).labelValue = some "5" := by
  have h := (analyzeRow_labelValue_spec sampleSheet 2 2 0).2
    ⟨some (.num 5)⟩ (by decide)
  rw [h]
  decide

/-! ### C3: header-row rule -/

/-- **C3, counterexample.** The claim states that with a pattern
supplied, the first candidate row whose `labelValue` is defined and
matches the pattern is returned.  Take the block below (no title: the
first row already has the maximal column count) and the
everything-matching pattern: the first candidate row's `labelValue` is
the defined (but empty) string `""`, which the pattern matches, yet
`detectHeaderRow` skips it — the source's JS truthiness test
`r.labelValue && pattern.test(r.labelValue)` rejects empty labels — and
returns the second row instead. -/
theorem detectHeaderRow_cex :
    detectTitleRow ⟨1, 2, [⟨1, 2, some ""⟩, ⟨2, 2, some "x"⟩], 2⟩ = none ∧
    ((⟨1, 2, some ""⟩ : BlockRow).labelValue.isSome = true ∧
      ((fun _ => true) : String → Bool) "" = true) ∧
    detectHeaderRow ⟨1, 2, [⟨1, 2, some ""⟩, ⟨2, 2, some "x"⟩], 2⟩
        ⟨some (fun _ => true), false⟩ =
      some ⟨2, 2, some "x"⟩ := by
  exact ⟨by decide, ⟨by decide, rfl⟩, rfl⟩

/-- **C3, amended.** For every block with non-empty rows and every
options value: `noHeader = true` always yields absent; otherwise, with
`headerCandidateRows` the block's rows minus the detected title row, the
result is absent when the candidates are empty; when a pattern is
supplied the result is the first candidate row whose `labelValue` is
defined, **non-empty** and matches the pattern (`labelMatches`, the
source's truthiness test) if such a row exists, and the first candidate
row when the pattern matched nothing; with no pattern the result is the
first candidate row. -/
theorem detectHeaderRow_spec (block : TableBlock)
    (opts : HeaderDetectionOptions) (hne : block.rows ≠ []) :
    (opts.noHeader = true → detectHeaderRow block opts = none) ∧
    (opts.noHeader = false →
      (headerCandidateRows block = [] → detectHeaderRow block opts = none) ∧
      (∀ p, opts.headerPattern = some p →
        (∀ m, (headerCandidateRows block).find? (labelMatches p) = some m →
          detectHeaderRow block opts = some m) ∧
        ((headerCandidateRows block).find? (labelMatches p) = none →
          detectHeaderRow block opts = (headerCandidateRows block).head?)) ∧
      (opts.headerPattern = none →
        detectHeaderRow block opts = (headerCandidateRows block).head?)) := by
  obtain ⟨pat, nh⟩ := opts
  constructor
  · intro h
    replace h : nh = true := h
    subst h
    simp [detectHeaderRow]
  · intro h
    replace h : nh = false := h
    subst h
    refine ⟨?_, ?_, ?_⟩
    · intro hc
      simp [detectHeaderRow, hc]
    · intro p hp
      replace hp : pat = some p := hp
      subst hp
      constructor
      · intro m hm
        have hc : ¬ headerCandidateRows block = [] := by
          intro hc
          rw [hc] at hm
          simp at hm
        simp [detectHeaderRow, List.isEmpty_iff, hc, hm]
      · intro hm
        by_cases hc : headerCandidateRows block = []
        · simp [detectHeaderRow, hc]
        · simp [detectHeaderRow, List.isEmpty_iff, hc, hm]
    · intro hp
      replace hp : pat = none := hp
      subst hp
      by_cases hc : headerCandidateRows block = []
      · simp [detectHeaderRow, hc]
      · simp [detectHeaderRow, List.isEmpty_iff, hc]

/-- Witness for C3 (amended): a titled 3-row block with a pattern that
matches the third row's label. -/
theorem detectHeaderRow_spec_witness :
    detectHeaderRow ⟨1, 3, [⟨1, 1, some "Ttl"⟩, ⟨2, 3, some "skip"⟩,
        ⟨3, 3, some "Name"⟩], 3⟩ ⟨some (fun s => s == "Name"), false⟩ =
      some ⟨3, 3, some "Name"⟩ := by
  have h := (((detectHeaderRow_spec
    ⟨1, 3, [⟨1, 1, some "Ttl"⟩, ⟨2, 3, some "skip"⟩, ⟨3, 3, some "Name"⟩], 3⟩
    ⟨some (fun s => s == "Name"), false⟩ (by decide)).2 rfl).2.1
    (fun s => s == "Name") rfl).1 ⟨3, 3, some "Name"⟩ (by rfl)
  exact h

/-! ### C4: the title/header/data partition -/

/-- In a list of rows with pairwise-distinct row numbers, equal row
numbers force equal rows. -/
theorem eq_of_row_eq {l : List BlockRow}
    (hnd : (l.map (fun r => r.row)).Nodup) {a b : BlockRow}
    (ha : a ∈ l) (hb : b ∈ l) (h : a.row = b.row) : a = b :=
  List.inj_on_of_nodup_map hnd ha hb h

/-- Filtering away the row number of a member of a duplicate-free list
removes exactly one element. -/
theorem filter_ne_row_length {l : List BlockRow} {x : BlockRow}
    (hx : x ∈ l) (hnd : (l.map (fun r => r.row)).Nodup) :
    (l.filter (fun r => r.row ≠ x.row)).length + 1 = l.length := by
  induction l with
  | nil => cases hx
  | cons a tl ih =>
    simp only [List.map_cons, List.nodup_cons] at hnd
    by_cases hax : a.row = x.row
    · have htl : tl.filter (fun r => r.row ≠ x.row) = tl := by
        apply List.filter_eq_self.mpr
        intro b hb
        simp only [ne_eq, decide_eq_true_eq]
        intro hbx
        exact hnd.1 (by
          rw [hax, ← hbx]
          exact List.mem_map_of_mem (fun r => r.row) hb)
      rw [List.filter_cons_of_neg (by simp [hax]), htl]
      simp
    · have hx' : x ∈ tl := by
        rcases List.mem_cons.mp hx with h | h
        · exact absurd (h ▸ rfl) hax
        · exact h
      have := ih hx' hnd.2
      rw [List.filter_cons_of_pos (by simp [hax])]
      simp only [List.length_cons]
      omega

/-- The row reported by `detectTitleRow` is the block's first row. -/
theorem detectTitleRow_head {block : TableBlock} {t : BlockRow}
    (h : detectTitleRow block = some t) : block.rows.head? = some t := by
  unfold detectTitleRow at h
  cases hh : block.rows.head? with
  | none => rw [hh] at h; cases h
  | some f =>
    simp only [hh] at h
    split_ifs at h
    exact h

/-- The row reported by `detectHeaderRow` is one of the candidate rows. -/
theorem detectHeaderRow_mem {block : TableBlock}
    {opts : HeaderDetectionOptions} {h : BlockRow}
    (hh : detectHeaderRow block opts = some h) :
    h ∈ headerCandidateRows block := by
  unfold detectHeaderRow at hh
  split_ifs at hh
  cases hp : opts.headerPattern with
  | none =>
    simp only [hp] at hh
    exact List.mem_of_mem_head? (Option.mem_def.mpr hh)
  | some p =>
    simp only [hp] at hh
    cases hf : (headerCandidateRows block).find? (labelMatches p) with
    | none =>
      simp only [hf] at hh
      exact List.mem_of_mem_head? (Option.mem_def.mpr hh)
    | some m =>
      simp only [hf, Option.some.injEq] at hh
      exact hh ▸ List.mem_of_find?_eq_some hf

/-- The first row's number does not reappear among the remaining rows of
a duplicate-free list. -/
theorem head_row_ne_of_mem_drop {l : List BlockRow} {t h : BlockRow}
    (hnd : (l.map (fun r => r.row)).Nodup)
    (hhead : l.head? = some t) (hmem : h ∈ l.drop 1) : t.row ≠ h.row := by
  cases l with
  | nil => cases hhead
  | cons a tl =>
    simp only [List.head?_cons, Option.some.injEq] at hhead
    subst hhead
    simp only [List.map_cons, List.nodup_cons] at hnd
    simp only [List.drop_one, List.tail_cons] at hmem
    intro he
    exact hnd.1 (he ▸ List.mem_map_of_mem (fun r => r.row) hmem)

/-- **C4.** For every block whose rows have pairwise-distinct row numbers
(and non-empty rows, per the Table Block invariant), and every options
value, `analyzeBlockStructure` partitions the block's rows: the
`dataRows` count plus 1 per present `titleRow`/`headerRow` equals the
total number of rows; `titleRow`, `headerRow` and `dataRows` are
pairwise disjoint, together cover all block rows, and `dataRows`
preserves the original row order (it is a sublist of `block.rows`). -/
theorem analyzeBlockStructure_partition (block : TableBlock)
    (opts : HeaderDetectionOptions)
    (hnd : (block.rows.map (fun r => r.row)).Nodup)
    (hne : block.rows ≠ []) :
    ((analyzeBlockStructure block opts).dataRows.length
        + (if (analyzeBlockStructure block opts).titleRow.isSome then 1 else 0)
        + (if (analyzeBlockStructure block opts).headerRow.isSome then 1 else 0)
      = block.rows.length) ∧
    (analyzeBlockStructure block opts).dataRows.Sublist block.rows ∧
    (∀ t, (analyzeBlockStructure block opts).titleRow = some t →
      t ∈ block.rows ∧ t ∉ (analyzeBlockStructure block opts).dataRows) ∧
    (∀ h, (analyzeBlockStructure block opts).headerRow = some h →
      h ∈ block.rows ∧ h ∉ (analyzeBlockStructure block opts).dataRows) ∧
    (∀ t h, (analyzeBlockStructure block opts).titleRow = some t →
      (analyzeBlockStructure block opts).headerRow = some h → t ≠ h) ∧
    (∀ r ∈ block.rows,
      (analyzeBlockStructure block opts).titleRow = some r ∨
      (analyzeBlockStructure block opts).headerRow = some r ∨
      r ∈ (analyzeBlockStructure block opts).dataRows) := by
  cases ht : detectTitleRow block with
  | none =>
    cases hh : detectHeaderRow block opts with
    | none =>
      simp only [analyzeBlockStructure, ht, hh, Option.isSome_none,
        Bool.false_eq_true, if_false]
      refine ⟨by simp, List.Sublist.refl _, by simp, by simp, by simp, ?_⟩
      intro r hr
      exact Or.inr (Or.inr hr)
    | some h =>
      have hcand : headerCandidateRows block = block.rows := by
        simp [headerCandidateRows, ht]
      have hhmem : h ∈ block.rows := hcand ▸ detectHeaderRow_mem hh
      have hlen := filter_ne_row_length hhmem hnd
      simp only [analyzeBlockStructure, ht, hh, Option.isSome_none,
        Option.isSome_some, Bool.false_eq_true, if_false, if_true]
      refine ⟨by omega, List.filter_sublist _, by simp, ?_, by simp, ?_⟩
      · intro h' hh'
        obtain rfl := Option.some.inj hh'
        refine ⟨hhmem, ?_⟩
        intro hmem
        have := (List.mem_filter.mp hmem).2
        simp at this
      · intro r hr
        by_cases hrh : r.row = h.row
        · exact Or.inr (Or.inl (by rw [eq_of_row_eq hnd hr hhmem hrh]))
        · exact Or.inr (Or.inr (List.mem_filter.mpr ⟨hr, by simpa using hrh⟩))
  | some t =>
    have hthead := detectTitleRow_head ht
    have htmem : t ∈ block.rows := List.mem_of_mem_head? (Option.mem_def.mpr hthead)
    have hlen1 := filter_ne_row_length htmem hnd
    cases hh : detectHeaderRow block opts with
    | none =>
      simp only [analyzeBlockStructure, ht, hh, Option.isSome_none,
        Option.isSome_some, Bool.false_eq_true, if_false, if_true]
      refine ⟨by omega, List.filter_sublist _, ?_, by simp, by simp, ?_⟩
      · intro t' ht'
        obtain rfl := Option.some.inj ht'
        refine ⟨htmem, ?_⟩
        intro hmem
        have := (List.mem_filter.mp hmem).2
        simp at this
      · intro r hr
        by_cases hrt : r.row = t.row
        · exact Or.inl (by rw [eq_of_row_eq hnd hr htmem hrt])
        · exact Or.inr (Or.inr (List.mem_filter.mpr ⟨hr, by simpa using hrt⟩))
    | some h =>
      have hcand : headerCandidateRows block = block.rows.drop 1 := by
        simp [headerCandidateRows, ht]
      have hhdrop : h ∈ block.rows.drop 1 := hcand ▸ detectHeaderRow_mem hh
      have hhmem : h ∈ block.rows := List.mem_of_mem_drop hhdrop
      have htneq : t.row ≠ h.row := head_row_ne_of_mem_drop hnd hthead hhdrop
      have hnd1 : ((block.rows.filter (fun r => r.row ≠ t.row)).map
          (fun r => r.row)).Nodup :=
        List.Nodup.sublist (List.Sublist.map _ (List.filter_sublist _)) hnd
      have hmem1 : h ∈ block.rows.filter (fun r => r.row ≠ t.row) :=
        List.mem_filter.mpr ⟨hhmem, by simpa using htneq.symm⟩
      have hlen2 := filter_ne_row_length hmem1 hnd1
      simp only [analyzeBlockStructure, ht, hh, Option.isSome_some, if_true]
      refine ⟨by omega, (List.filter_sublist _).trans (List.filter_sublist _),
        ?_, ?_, ?_, ?_⟩
      · intro t' ht'
        obtain rfl := Option.some.inj ht'
        refine ⟨htmem, ?_⟩
        intro hmem
        have := (List.mem_filter.mp (List.mem_of_mem_filter hmem)).2
        simp at this
      · intro h' hh'
        obtain rfl := Option.some.inj hh'
        refine ⟨hhmem, ?_⟩
        intro hmem
        have := (List.mem_filter.mp hmem).2
        simp at this
      · intro t' h' ht' hh'
        obtain rfl := Option.some.inj ht'
        obtain rfl := Option.some.inj hh'
        intro he
        exact htneq (he ▸ rfl)
      · intro r hr
        by_cases hrt : r.row = t.row
        · exact Or.inl (by rw [eq_of_row_eq hnd hr htmem hrt])
        · by_cases hrh : r.row = h.row
          · exact Or.inr (Or.inl (by rw [eq_of_row_eq hnd hr hhmem hrh]))
          · refine Or.inr (Or.inr (List.mem_filter.mpr
              ⟨List.mem_filter.mpr ⟨hr, by simpa using hrt⟩, by simpa using hrh⟩))

/-- Witness for C4: a titled and headered 3-row block leaves exactly one
data row. -/
theorem analyzeBlockStructure_partition_witness :
    (analyzeBlockStructure ⟨1, 3, [⟨1, 1, some "Ttl"⟩, ⟨2, 3, some "A"⟩,
        ⟨3, 3, some "B"⟩], 3⟩ {}).dataRows.length
      + (if (analyzeBlockStructure ⟨1, 3, [⟨1, 1, some "Ttl"⟩, ⟨2, 3, some "A"⟩,
          ⟨3, 3, some "B"⟩], 3⟩ {}).titleRow.isSome then 1 else 0)
      + (if (analyzeBlockStructure ⟨1, 3, [⟨1, 1, some "Ttl"⟩, ⟨2, 3, some "A"⟩,
          ⟨3, 3, some "B"⟩], 3⟩ {}).headerRow.isSome then 1 else 0) = 3 :=
  (analyzeBlockStructure_partition ⟨1, 3, [⟨1, 1, some "Ttl"⟩, ⟨2, 3, some "A"⟩,
    ⟨3, 3, some "B"⟩], 3⟩ {} (by decide) (by decide)).1

/-! ### C1/C6: invariants of the block segmenter -/

/-- A 1-based row is occupied when it has at least one occupied column
in `0 .. maxCol-1`. -/
def rowOccupied (sheet : Sheet) (maxCol row : Nat) : Prop :=
  countOccupiedColumns sheet row maxCol ≠ 0

theorem analyzeRow_row (sheet : Sheet) (row maxCol labelCol : Nat) :
    (analyzeRow sheet row maxCol labelCol).row = row := rfl

theorem analyzeRow_columnCount (sheet : Sheet) (row maxCol labelCol : Nat) :
    (analyzeRow sheet row maxCol labelCol).columnCount =
      countOccupiedColumns sheet row maxCol := rfl

/-- `foldl Nat.max` dominates its initial value. -/
theorem foldl_max_init (l : List Nat) : ∀ a : Nat, a ≤ l.foldl Nat.max a := by
  induction l with
  | nil => intro a; exact Nat.le_refl a
  | cons b tl ih =>
    intro a
    exact le_trans (Nat.le_max_left a b) (ih (Nat.max a b))

/-- `foldl Nat.max` dominates every member. -/
theorem foldl_max_le {l : List Nat} {x : Nat} (hx : x ∈ l) :
    ∀ a : Nat, x ≤ l.foldl Nat.max a := by
  induction l with
  | nil => cases hx
  | cons b tl ih =>
    intro a
    rcases List.mem_cons.mp hx with h | h
    · subst h
      exact le_trans (Nat.le_max_right a x) (foldl_max_init tl (Nat.max a x))
    · exact ih h (Nat.max a b)

/-- `foldl Nat.max a` is a member or the initial value. -/
theorem foldl_max_mem (l : List Nat) : ∀ a : Nat,
    l.foldl Nat.max a ∈ l ∨ l.foldl Nat.max a = a := by
  induction l with
  | nil => intro a; exact Or.inr rfl
  | cons b tl ih =>
    intro a
    rcases ih (Nat.max a b) with h | h
    · exact Or.inl (List.mem_cons_of_mem b h)
    · rw [List.foldl_cons, h]
      rcases Nat.le_total a b with hab | hab
      · left
        have hmax : a.max b = b := by
          unfold Nat.max
          simp [hab]
        rw [hmax]
        exact List.mem_cons_self b tl
      · right
        unfold Nat.max
        exact sup_eq_left.mpr hab

/-- On a non-empty list, `foldl Nat.max 0` is attained by a member. -/
theorem foldl_max_mem_of_ne_nil {l : List Nat} (h : l ≠ []) :
    l.foldl Nat.max 0 ∈ l := by
  rcases foldl_max_mem l 0 with hm | hm
  · exact hm
  · cases l with
    | nil => exact absurd rfl h
    | cons b tl =>
      have hb : b ≤ 0 := hm ▸ foldl_max_le (List.mem_cons_self b tl) 0
      have : b = 0 := Nat.le_antisymm hb (Nat.zero_le b)
      rw [hm, ← this]
      exact List.mem_cons_self b tl

/-- The row numbers of a run of analyzed rows are the run itself. -/
theorem run_rows_map (sheet : Sheet) (labelCol maxCol s n : Nat) :
    ((List.range' s n).map (fun r => analyzeRow sheet r maxCol labelCol)).map
      (fun r => r.row) = List.range' s n := by
  rw [List.map_map]
  show List.map (fun r => r) _ = _
  exact List.map_id _

/-- `createBlock` on the run `[s, e]` of analyzed rows yields start `s`
and end `e` (with rows and maximum as computed). -/
theorem createBlock_run (sheet : Sheet) (labelCol maxCol s e : Nat)
    (hse : s ≤ e) :
    createBlock ((List.range' s (e + 1 - s)).map
        (fun r => analyzeRow sheet r maxCol labelCol)) s =
      { startRow := s
        endRow := e
        rows := (List.range' s (e + 1 - s)).map
          (fun r => analyzeRow sheet r maxCol labelCol)
        maxColumnCount := (((List.range' s (e + 1 - s)).map
            (fun r => analyzeRow sheet r maxCol labelCol)).map
          (fun r => r.columnCount)).foldl Nat.max 0 } := by
  unfold createBlock
  have h1 : e + 1 - s = (e - s) + 1 := by omega
  have h2 : (List.range' s (e + 1 - s)).getLast? = some e := by
    rw [h1]
    have := @List.range'_concat 1 s (e - s)
    simp only [Nat.one_mul] at this
    rw [this, List.getLast?_concat]
    congr 1
    omega
  rw [run_rows_map, h2]
  rfl

/-- The scanning invariant of `detectTableBlocks` after processing rows
`1 .. k`: closed blocks are well-formed runs of occupied rows below `k`,
pairwise separated; the open buffer (when a start is recorded) is the
run `[s, k]` of occupied rows lying strictly after every closed block;
every occupied row `≤ k` is accounted for. -/
structure SegInv (sheet : Sheet) (labelCol maxCol k : Nat) (st : ScanState) :
    Prop where
  blocksOK : ∀ b ∈ st.1,
    b.rows = (List.range' b.startRow (b.endRow + 1 - b.startRow)).map
        (fun r => analyzeRow sheet r maxCol labelCol) ∧
    1 ≤ b.startRow ∧ b.startRow ≤ b.endRow ∧
    (∀ row, b.startRow ≤ row → row ≤ b.endRow → rowOccupied sheet maxCol row) ∧
    b.maxColumnCount = (b.rows.map (fun r => r.columnCount)).foldl Nat.max 0
  blocksClosed : ∀ b ∈ st.1, b.endRow + 1 ≤ k
  pairSep : st.1.Pairwise (fun b1 b2 => b1.endRow + 1 < b2.startRow)
  curNone : st.2.2 = none → st.2.1 = []
  curSome : ∀ s, st.2.2 = some s →
    1 ≤ s ∧ s ≤ k ∧
    st.2.1 = (List.range' s (k + 1 - s)).map
      (fun r => analyzeRow sheet r maxCol labelCol) ∧
    (∀ row, s ≤ row → row ≤ k → rowOccupied sheet maxCol row) ∧
    (∀ b ∈ st.1, b.endRow + 1 < s)
  cover : ∀ row, 1 ≤ row → row ≤ k → rowOccupied sheet maxCol row →
    (∃ b ∈ st.1, b.startRow ≤ row ∧ row ≤ b.endRow) ∨
    (∃ s, st.2.2 = some s ∧ s ≤ row)

/-- One scanning step preserves the invariant. -/
theorem stepRow_inv (sheet : Sheet) (labelCol maxCol k : Nat) (st : ScanState)
    (inv : SegInv sheet labelCol maxCol k st) :
    SegInv sheet labelCol maxCol (k + 1)
      (stepRow sheet labelCol maxCol st (k + 1)) := by
  obtain ⟨blocks, cur, start⟩ := st
  by_cases hocc : countOccupiedColumns sheet (k + 1) maxCol = 0
  · by_cases hcur : cur = []
    · -- empty row, nothing to close: state unchanged
      have hstep : stepRow sheet labelCol maxCol (blocks, cur, start) (k + 1) =
          (blocks, cur, start) := by
        simp [stepRow, analyzeRow_columnCount, hocc, hcur]
      rw [hstep]
      have hstart : start = none := by
        cases hs : start with
        | none => rfl
        | some s =>
          obtain ⟨h1, h2, h3, _, _⟩ := inv.curSome s hs
          rw [hcur] at h3
          have hlen := congrArg List.length h3
          simp [List.length_range'] at hlen
          omega
      refine ⟨inv.blocksOK, fun b hb => Nat.le_succ_of_le (inv.blocksClosed b hb),
        inv.pairSep, inv.curNone, ?_, ?_⟩
      · intro s hs
        rw [hstart] at hs
        cases hs
      · intro row hr1 hr2 hro
        rcases Nat.lt_or_ge row (k + 1) with hlt | hge
        · rcases inv.cover row hr1 (by omega) hro with h | ⟨s, hs, _⟩
          · exact Or.inl h
          · rw [hstart] at hs
            cases hs
        · have hrow : row = k + 1 := by omega
          rw [hrow] at hro
          exact absurd hocc hro
    · -- empty row closes the open block
      obtain ⟨s, hs⟩ : ∃ s, start = some s := by
        cases hs : start with
        | some s => exact ⟨s, rfl⟩
        | none => exact absurd (inv.curNone hs) hcur
      obtain ⟨hs1, hs2, hs3, hs4, hs5⟩ := inv.curSome s hs
      replace hs3 : cur = (List.range' s (k + 1 - s)).map
        (fun r => analyzeRow sheet r maxCol labelCol) := hs3
      replace hs5 : ∀ b ∈ blocks, b.endRow + 1 < s := hs5
      have hstep : stepRow sheet labelCol maxCol (blocks, cur, start) (k + 1) =
          (blocks ++ [createBlock cur s], [], none) := by
        simp [stepRow, analyzeRow_columnCount, hocc, hcur, hs]
      have hcb : createBlock cur s =
          { startRow := s, endRow := k, rows := cur,
            maxColumnCount := (cur.map (fun r => r.columnCount)).foldl Nat.max 0 } := by
        rw [hs3]
        exact createBlock_run sheet labelCol maxCol s k hs2
      rw [hstep, hcb]
      refine ⟨?_, ?_, ?_, fun _ => rfl, ?_, ?_⟩
      · intro b hb
        rcases List.mem_append.mp hb with h | h
        · exact inv.blocksOK b h
        · obtain rfl := List.mem_singleton.mp h
          exact ⟨hs3, hs1, hs2, hs4, rfl⟩
      · intro b hb
        rcases List.mem_append.mp hb with h | h
        · exact Nat.le_succ_of_le (inv.blocksClosed b h)
        · obtain rfl := List.mem_singleton.mp h
          exact Nat.le_refl _
      · rw [List.pairwise_append]
        refine ⟨inv.pairSep, List.pairwise_singleton _ _, ?_⟩
        intro a ha b hb
        obtain rfl := List.mem_singleton.mp hb
        exact hs5 a ha
      · intro s' hs'
        cases hs'
      · intro row h1 h2 hro
        rcases Nat.lt_or_ge row (k + 1) with hlt | hge
        · rcases inv.cover row h1 (by omega) hro with h | ⟨s', hseq, hsle⟩
          · obtain ⟨b, hb, hbr⟩ := h
            exact Or.inl ⟨b, List.mem_append_left _ hb, hbr⟩
          · rw [hs] at hseq
            obtain rfl := Option.some.inj hseq
            refine Or.inl ⟨_, List.mem_append_right _ (List.mem_singleton.mpr rfl), ?_, ?_⟩
            · exact hsle
            · show row ≤ k
              omega
        · have hrow : row = k + 1 := by omega
          rw [hrow] at hro
          exact absurd hocc hro
  · -- occupied row
    cases hstart : start with
    | none =>
      have hcur : cur = [] := inv.curNone hstart
      have hstep : stepRow sheet labelCol maxCol (blocks, cur, none) (k + 1) =
          (blocks, cur ++ [analyzeRow sheet (k + 1) maxCol labelCol],
            some (k + 1)) := by
        simp [stepRow, analyzeRow_columnCount, hocc]
      rw [hstep]
      refine ⟨inv.blocksOK, fun b hb => Nat.le_succ_of_le (inv.blocksClosed b hb),
        inv.pairSep, ?_, ?_, ?_⟩
      · intro h
        cases h
      · intro s' hseq
        obtain rfl := (Option.some.inj hseq).symm
        refine ⟨by omega, Nat.le_refl _, ?_, ?_, ?_⟩
        · rw [hcur]
          have hr1 : k + 1 + 1 - (k + 1) = 1 := by omega
          rw [hr1]
          rfl
        · intro row hr1 hr2
          have hrow : row = k + 1 := by omega
          rw [hrow]
          exact hocc
        · intro b hb
          exact Nat.lt_succ_of_le (inv.blocksClosed b hb)
      · intro row h1 h2 hro
        rcases Nat.lt_or_ge row (k + 1) with hlt | hge
        · rcases inv.cover row h1 (by omega) hro with h | ⟨s', hseq, _⟩
          · exact Or.inl h
          · rw [hstart] at hseq
            cases hseq
        · exact Or.inr ⟨k + 1, rfl, by omega⟩
    | some s =>
      obtain ⟨hs1, hs2, hs3, hs4, hs5⟩ := inv.curSome s hstart
      replace hs3 : cur = (List.range' s (k + 1 - s)).map
        (fun r => analyzeRow sheet r maxCol labelCol) := hs3
      replace hs5 : ∀ b ∈ blocks, b.endRow + 1 < s := hs5
      have hstep : stepRow sheet labelCol maxCol (blocks, cur, some s) (k + 1) =
          (blocks, cur ++ [analyzeRow sheet (k + 1) maxCol labelCol], some s) := by
        simp [stepRow, analyzeRow_columnCount, hocc]
      rw [hstep]
      refine ⟨inv.blocksOK, fun b hb => Nat.le_succ_of_le (inv.blocksClosed b hb),
        inv.pairSep, ?_, ?_, ?_⟩
      · intro h
        cases h
      · intro s' hseq
        obtain rfl := Option.some.inj hseq
        refine ⟨hs1, Nat.le_succ_of_le hs2, ?_, ?_, hs5⟩
        · rw [hs3]
          have h1 : k + 1 + 1 - s = (k + 1 - s) + 1 := by omega
          rw [h1]
          have h2 := @List.range'_concat 1 s (k + 1 - s)
          simp only [Nat.one_mul] at h2
          rw [h2, List.map_append]
          have h3 : s + (k + 1 - s) = k + 1 := by omega
          rw [h3]
          rfl
        · intro row hr1 hr2
          rcases Nat.lt_or_ge row (k + 1) with hlt | hge
          · exact hs4 row hr1 (by omega)
          · have hrow : row = k + 1 := by omega
            rw [hrow]
            exact hocc
      · intro row h1 h2 hro
        rcases Nat.lt_or_ge row (k + 1) with hlt | hge
        · rcases inv.cover row h1 (by omega) hro with h | ⟨s', hseq, hsle⟩
          · exact Or.inl h
          · rw [hstart] at hseq
            obtain rfl := (Option.some.inj hseq).symm
            exact Or.inr ⟨s', rfl, hsle⟩
        · exact Or.inr ⟨s, rfl, by omega⟩

/-- Folding the scanner over rows `k+1 .. k+n` preserves the invariant. -/
theorem foldScan_inv (sheet : Sheet) (labelCol maxCol : Nat) (n : Nat) :
    ∀ (k : Nat) (st : ScanState), SegInv sheet labelCol maxCol k st →
      SegInv sheet labelCol maxCol (k + n)
        ((List.range' (k + 1) n).foldl (stepRow sheet labelCol maxCol) st) := by
  induction n with
  | zero =>
    intro k st inv
    simpa using inv
  | succ n ih =>
    intro k st inv
    have h1 : List.range' (k + 1) (n + 1) = (k + 1) :: List.range' (k + 1 + 1) n :=
      rfl
    rw [h1, List.foldl_cons]
    have inv1 := stepRow_inv sheet labelCol maxCol k st inv
    have h2 := ih (k + 1) _ inv1
    have h3 : k + 1 + n = k + (n + 1) := by omega
    rw [h3] at h2
    exact h2

/-- The invariant holds before any row is scanned. -/
theorem segInv_init (sheet : Sheet) (labelCol maxCol : Nat) :
    SegInv sheet labelCol maxCol 0 ([], [], none) := by
  refine ⟨?_, ?_, ?_, ?_, ?_, ?_⟩
  · intro b hb
    cases hb
  · intro b hb
    cases hb
  · exact List.Pairwise.nil
  · intro _
    rfl
  · intro s hs
    cases hs
  · intro row h1 h2
    omega

/-- Two members of a pairwise-separated block list containing the same
row coincide. -/
theorem pairwise_disjoint_unique {blocks : List TableBlock}
    (hpair : blocks.Pairwise (fun b1 b2 => b1.endRow + 1 < b2.startRow))
    {row : Nat} {b1 b2 : TableBlock} (h1 : b1 ∈ blocks) (h2 : b2 ∈ blocks)
    (hc1 : b1.startRow ≤ row ∧ row ≤ b1.endRow)
    (hc2 : b2.startRow ≤ row ∧ row ≤ b2.endRow) : b1 = b2 := by
  induction blocks with
  | nil => cases h1
  | cons a tl ih =>
    rw [List.pairwise_cons] at hpair
    rcases List.mem_cons.mp h1 with ha1 | ha1 <;>
      rcases List.mem_cons.mp h2 with ha2 | ha2
    · rw [ha1, ha2]
    · subst ha1
      have := hpair.1 b2 ha2
      omega
    · subst ha2
      have := hpair.1 b1 ha1
      omega
    · exact ih hpair.2 ha1 ha2

/-- Facts about the final block list of `detectTableBlocks`: each block
is the analyzed run of its (occupied) row range with the computed
maximum; blocks are pairwise separated by more than adjacency; and a row
of the scanned extent is occupied iff some returned block contains it. -/
theorem detectTableBlocks_final (sheet : Sheet) (labelCol : Nat) :
    (∀ b ∈ detectTableBlocks sheet labelCol,
      b.rows = (List.range' b.startRow (b.endRow + 1 - b.startRow)).map
          (fun r => analyzeRow sheet r (sheet.refEC + 1) labelCol) ∧
      1 ≤ b.startRow ∧ b.startRow ≤ b.endRow ∧ b.endRow ≤ sheet.refER + 1 ∧
      (∀ row, b.startRow ≤ row → row ≤ b.endRow →
        rowOccupied sheet (sheet.refEC + 1) row) ∧
      b.maxColumnCount = (b.rows.map (fun r => r.columnCount)).foldl Nat.max 0) ∧
    (detectTableBlocks sheet labelCol).Pairwise
      (fun b1 b2 => b1.endRow + 1 < b2.startRow) ∧
    (∀ row, 1 ≤ row → row ≤ sheet.refER + 1 →
      (rowOccupied sheet (sheet.refEC + 1) row ↔
        ∃ b ∈ detectTableBlocks sheet labelCol,
          b.startRow ≤ row ∧ row ≤ b.endRow)) := by
  have hinv := foldScan_inv sheet labelCol (sheet.refEC + 1) (sheet.refER + 1) 0
    ([], [], none) (segInv_init sheet labelCol (sheet.refEC + 1))
  rw [Nat.zero_add] at hinv
  set st := (List.range' (0 + 1) (sheet.refER + 1)).foldl
    (stepRow sheet labelCol (sheet.refEC + 1)) ([], [], none) with hst
  have hdet : detectTableBlocks sheet labelCol =
      (if st.2.1.isEmpty then st.1
       else st.1 ++ [createBlock st.2.1 (st.2.2.getD 0)]) := rfl
  by_cases hcur : st.2.1.isEmpty
  · -- no trailing open block
    rw [hdet, if_pos hcur]
    replace hcur : st.2.1 = [] := List.isEmpty_iff.mp hcur
    have hnostart : ∀ s, st.2.2 ≠ some s := by
      intro s hs
      obtain ⟨h1, h2, h3, _, _⟩ := hinv.curSome s hs
      rw [hcur] at h3
      have hlen := congrArg List.length h3
      simp [List.length_range'] at hlen
      omega
    refine ⟨?_, hinv.pairSep, ?_⟩
    · intro b hb
      obtain ⟨hr, h1, h2, hoc, hmx⟩ := hinv.blocksOK b hb
      have hcl := hinv.blocksClosed b hb
      exact ⟨hr, h1, h2, by omega, hoc, hmx⟩
    · intro row h1 h2
      constructor
      · intro hro
        rcases hinv.cover row h1 h2 hro with h | ⟨s, hs, _⟩
        · exact h
        · exact absurd hs (hnostart s)
      · intro ⟨b, hb, hb1, hb2⟩
        exact (hinv.blocksOK b hb).2.2.2.1 row hb1 hb2
  · -- close the trailing block
    rw [hdet, if_neg hcur]
    replace hcur : st.2.1 ≠ [] := fun h => hcur (List.isEmpty_iff.mpr h)
    obtain ⟨s, hs⟩ : ∃ s, st.2.2 = some s := by
      cases hs : st.2.2 with
      | some s => exact ⟨s, rfl⟩
      | none => exact absurd (hinv.curNone hs) hcur
    obtain ⟨hs1, hs2, hs3, hs4, hs5⟩ := hinv.curSome s hs
    have hcb : createBlock st.2.1 (st.2.2.getD 0) =
        { startRow := s, endRow := sheet.refER + 1, rows := st.2.1,
          maxColumnCount :=
            (st.2.1.map (fun r => r.columnCount)).foldl Nat.max 0 } := by
      rw [hs, hs3]
      exact createBlock_run sheet labelCol (sheet.refEC + 1) s (sheet.refER + 1) hs2
    rw [hcb]
    refine ⟨?_, ?_, ?_⟩
    · intro b hb
      rcases List.mem_append.mp hb with h | h
      · obtain ⟨hr, h1, h2, hoc, hmx⟩ := hinv.blocksOK b h
        have hcl := hinv.blocksClosed b h
        exact ⟨hr, h1, h2, by omega, hoc, hmx⟩
      · obtain rfl := List.mem_singleton.mp h
        exact ⟨hs3, hs1, hs2, Nat.le_refl _, hs4, rfl⟩
    · rw [List.pairwise_append]
      refine ⟨hinv.pairSep, List.pairwise_singleton _ _, ?_⟩
      intro a ha b hb
      obtain rfl := List.mem_singleton.mp hb
      exact hs5 a ha
    · intro row h1 h2
      constructor
      · intro hro
        rcases hinv.cover row h1 h2 hro with h | ⟨s', hseq, hsle⟩
        · obtain ⟨b, hb, hbr⟩ := h
          exact ⟨b, List.mem_append_left _ hb, hbr⟩
        · rw [hs] at hseq
          obtain rfl := Option.some.inj hseq
          exact ⟨_, List.mem_append_right _ (List.mem_singleton.mpr rfl),
            hsle, h2⟩
      · intro ⟨b, hb, hb1, hb2⟩
        rcases List.mem_append.mp hb with h | h
        · exact (hinv.blocksOK b h).2.2.2.1 row hb1 hb2
        · obtain rfl := List.mem_singleton.mp h
          exact hs4 row hb1 hb2

instance (sheet : Sheet) (maxCol row : Nat) :
    Decidable (rowOccupied sheet maxCol row) := by
  unfold rowOccupied
  infer_instance

/-- No block of a pairwise-separated list reaches into the gap between
two adjacent members. -/
theorem no_block_in_gap {l : List TableBlock}
    (hpair : l.Pairwise (fun b1 b2 => b1.endRow + 1 < b2.startRow))
    (hse : ∀ b ∈ l, b.startRow ≤ b.endRow)
    (i i' : Fin l.length) (hii : i.1 + 1 = i'.1) {row : Nat}
    (h1 : (l.get i).endRow < row) (h2 : row < (l.get i').startRow)
    {b : TableBlock} (hb : b ∈ l) :
    ¬(b.startRow ≤ row ∧ row ≤ b.endRow) := by
  intro hc
  obtain ⟨j, hj⟩ := List.mem_iff_get.mp hb
  have hpg := List.pairwise_iff_get.mp hpair
  rcases lt_trichotomy j.1 i.1 with h | h | h
  · have hr := hpg j i h
    rw [hj] at hr
    have hsi := hse (l.get i) (List.get_mem l i.1 i.2)
    omega
  · have hji : j = i := Fin.ext h
    rw [hji] at hj
    rw [hj] at h1
    omega
  · rcases Nat.lt_or_ge i'.1 j.1 with h' | h'
    · have hr := hpg i' j h'
      rw [hj] at hr
      have hsi' := hse (l.get i') (List.get_mem l i'.1 i'.2)
      omega
    · have hji : j = i' := Fin.ext (by omega)
      rw [hji] at hj
      rw [hj] at h2
      omega

/-- **C1.** For every grid and label column, every block returned by
`detectTableBlocks` has non-empty rows, contiguous row numbers
`startRow .. endRow` in increasing order, every member row with
`columnCount ≥ 1`, and `maxColumnCount` attained as the maximum of the
member counts; every occupied row of the declared row extent belongs to
exactly one block; consecutive blocks are separated by at least one row,
all rows strictly between them are fully empty, and blocks appear in
strictly increasing row order. -/
theorem detectTableBlocks_invariants (sheet : Sheet) (labelCol : Nat) :
    (∀ b ∈ detectTableBlocks sheet labelCol,
      b.rows ≠ [] ∧
      b.rows.map (fun r => r.row) =
        List.range' b.startRow (b.endRow + 1 - b.startRow) ∧
      b.startRow ≤ b.endRow ∧
      (∀ r ∈ b.rows, 1 ≤ r.columnCount) ∧
      (∀ r ∈ b.rows, r.columnCount ≤ b.maxColumnCount) ∧
      (∃ r ∈ b.rows, r.columnCount = b.maxColumnCount)) ∧
    (∀ row, 1 ≤ row → row ≤ sheet.refER + 1 →
      rowOccupied sheet (sheet.refEC + 1) row →
      ∃! b, b ∈ detectTableBlocks sheet labelCol ∧
        b.startRow ≤ row ∧ row ≤ b.endRow) ∧
    List.Chain' (fun b1 b2 => b1.endRow + 1 < b2.startRow ∧
      ∀ row, b1.endRow < row → row < b2.startRow →
        ¬ rowOccupied sheet (sheet.refEC + 1) row)
      (detectTableBlocks sheet labelCol) ∧
    List.Chain' (fun b1 b2 => b1.startRow < b2.startRow)
      (detectTableBlocks sheet labelCol) := by
  obtain ⟨hblocks, hpair, hcover⟩ := detectTableBlocks_final sheet labelCol
  have hse : ∀ b ∈ detectTableBlocks sheet labelCol,
      b.startRow ≤ b.endRow := fun b hb => (hblocks b hb).2.2.1
  refine ⟨?_, ?_, ?_, ?_⟩
  · intro b hb
    obtain ⟨hr, h1, h2, h3, hoc, hmx⟩ := hblocks b hb
    have hlen : b.rows.length = b.endRow + 1 - b.startRow := by
      rw [hr]
      simp [List.length_range']
    have hne : b.rows ≠ [] := by
      intro hn
      rw [hn] at hlen
      simp at hlen
      omega
    refine ⟨hne, ?_, h2, ?_, ?_, ?_⟩
    · rw [hr]
      exact run_rows_map sheet labelCol (sheet.refEC + 1) b.startRow _
    · intro r hrm
      rw [hr] at hrm
      obtain ⟨row, hrow, rfl⟩ := List.mem_map.mp hrm
      have hbd := List.mem_range'_1.mp hrow
      have hocr := hoc row hbd.1 (by omega)
      have hne0 : (analyzeRow sheet row (sheet.refEC + 1) labelCol).columnCount ≠ 0 :=
        hocr
      omega
    · intro r hrm
      rw [hmx]
      exact foldl_max_le (List.mem_map_of_mem _ hrm) 0
    · have hmapne : b.rows.map (fun r => r.columnCount) ≠ [] := by
        simp [hne]
      have hmem := foldl_max_mem_of_ne_nil hmapne
      rw [← hmx] at hmem
      obtain ⟨r, hrm, hre⟩ := List.mem_map.mp hmem
      exact ⟨r, hrm, hre⟩
  · intro row h1 h2 hro
    obtain ⟨b, hb, hbr⟩ := (hcover row h1 h2).mp hro
    refine ⟨b, ⟨hb, hbr⟩, ?_⟩
    intro b' hb'
    exact pairwise_disjoint_unique hpair hb'.1 hb hb'.2 hbr
  · rw [List.chain'_iff_get]
    intro i hi
    have hi1 : i < (detectTableBlocks sheet labelCol).length := by omega
    have hi2 : i + 1 < (detectTableBlocks sheet labelCol).length := by omega
    show (((detectTableBlocks sheet labelCol).get ⟨i, hi1⟩).endRow + 1 <
        ((detectTableBlocks sheet labelCol).get ⟨i + 1, hi2⟩).startRow) ∧
      ∀ row, ((detectTableBlocks sheet labelCol).get ⟨i, hi1⟩).endRow < row →
        row < ((detectTableBlocks sheet labelCol).get ⟨i + 1, hi2⟩).startRow →
        ¬ rowOccupied sheet (sheet.refEC + 1) row
    have hmemI := List.get_mem (detectTableBlocks sheet labelCol) i hi1
    have hmemJ := List.get_mem (detectTableBlocks sheet labelCol) (i + 1) hi2
    obtain ⟨_, hgI1, hgI2, hgI3, _, _⟩ :=
      hblocks ((detectTableBlocks sheet labelCol).get ⟨i, hi1⟩) hmemI
    obtain ⟨_, hgJ1, hgJ2, hgJ3, _, _⟩ :=
      hblocks ((detectTableBlocks sheet labelCol).get ⟨i + 1, hi2⟩) hmemJ
    constructor
    · exact List.pairwise_iff_get.mp hpair ⟨i, hi1⟩ ⟨i + 1, hi2⟩
        (Fin.mk_lt_mk.mpr (by omega))
    · intro row hr1 hr2 hro
      obtain ⟨b, hb, hc⟩ := (hcover row (by omega) (by omega)).mp hro
      exact no_block_in_gap hpair hse ⟨i, hi1⟩ ⟨i + 1, hi2⟩ rfl hr1 hr2 hb hc
  · rw [List.chain'_iff_get]
    intro i hi
    have hi1 : i < (detectTableBlocks sheet labelCol).length := by omega
    have hi2 : i + 1 < (detectTableBlocks sheet labelCol).length := by omega
    show ((detectTableBlocks sheet labelCol).get ⟨i, hi1⟩).startRow <
      ((detectTableBlocks sheet labelCol).get ⟨i + 1, hi2⟩).startRow
    have hrel := List.pairwise_iff_get.mp hpair ⟨i, hi1⟩ ⟨i + 1, hi2⟩
      (Fin.mk_lt_mk.mpr (by omega))
    have hs := hse ((detectTableBlocks sheet labelCol).get ⟨i, hi1⟩)
      (List.get_mem (detectTableBlocks sheet labelCol) i hi1)
    omega

/-- Witness for C1 on `sampleSheet`: occupied row 2 lies in exactly one
returned block. -/
theorem detectTableBlocks_invariants_witness :
    ∃! b, b ∈ detectTableBlocks sampleSheet 0 ∧
      b.startRow ≤ 2 ∧ 2 ≤ b.endRow :=
  (detectTableBlocks_invariants sampleSheet 0).2.1 2 (by decide) (by decide)
    (by decide)

/-- **C6.** A grid none of whose rows in the declared row extent is
occupied yields no blocks (and, the model being a total function, no
error). -/
theorem detectTableBlocks_empty (sheet : Sheet) (labelCol : Nat)
    (h : ∀ row ∈ List.range' 1 (sheet.refER + 1),
      ¬ rowOccupied sheet (sheet.refEC + 1) row) :
    detectTableBlocks sheet labelCol = [] := by
  obtain ⟨hblocks, _, _⟩ := detectTableBlocks_final sheet labelCol
  cases hl : detectTableBlocks sheet labelCol with
  | nil => rfl
  | cons b tl =>
    have hb : b ∈ detectTableBlocks sheet labelCol := by
      rw [hl]
      exact List.mem_cons_self b tl
    obtain ⟨_, h1, h2, h3, hoc, _⟩ := hblocks b hb
    have hocs := hoc b.startRow (Nat.le_refl _) h2
    have hmem : b.startRow ∈ List.range' 1 (sheet.refER + 1) := by
      rw [List.mem_range'_1]
      omega
    exact absurd hocs (h b.startRow hmem)

/-- Witness for C6: a 3×2 declared range with no cells at all. -/
theorem detectTableBlocks_empty_witness :
    detectTableBlocks
      { cells := fun _ _ => none, refSR := 0, refSC := 0,
        refER := 2, refEC := 1 } 0 = [] :=
  detectTableBlocks_empty _ 0 (by decide)

/-! ### C8: which cells can influence detection -/

/-- A sheet declaring the range B2:B2 with its only cell at B2. -/
def extentSheetA : Sheet :=
  { cells := fun r c => if r = 1 && c = 1 then some ⟨some (.str "x")⟩ else none
    refSR := 1, refSC := 1, refER := 1, refEC := 1 }

/-- Like `extentSheetA` but with an extra cell at A1 — outside the
declared range B2:B2. -/
def extentSheetB : Sheet :=
  { cells := fun r c =>
      if r = 1 && c = 1 then some ⟨some (.str "x")⟩
      else if r = 0 && c = 0 then some ⟨some (.str "y")⟩
      else none
    refSR := 1, refSC := 1, refER := 1, refEC := 1 }

/-- **C8, counterexample.** The two sheets declare the same range B2:B2
and agree on every cell inside that declared extent, yet
`detectTableBlocks` distinguishes them: the scan always starts at row 1
and column 0, so the cell A1 — outside the declared extent — is
consulted. -/
theorem detectTableBlocks_extent_cex :
    extentSheetA.refSR = extentSheetB.refSR ∧
    extentSheetA.refSC = extentSheetB.refSC ∧
    extentSheetA.refER = extentSheetB.refER ∧
    extentSheetA.refEC = extentSheetB.refEC ∧
    (∀ r < 2, ∀ c < 2,
      extentSheetA.refSR ≤ r → r ≤ extentSheetA.refER →
      extentSheetA.refSC ≤ c → c ≤ extentSheetA.refEC →
      extentSheetA.cells r c = extentSheetB.cells r c) ∧
    detectTableBlocks extentSheetA 0 ≠ detectTableBlocks extentSheetB 0 := by
  refine ⟨rfl, rfl, rfl, rfl, ?_, by decide⟩
  intro r hr2 c hc2 h1 h2 h3 h4
  simp only [extentSheetA] at h1 h2 h3 h4
  have hr1 : r = 1 := by omega
  have hc1 : c = 1 := by omega
  subst hr1
  subst hc1
  rfl

/-- **C8, amended.** Two sheets that declare the same range *end corner*
and agree on every cell of the rectangle from A1 to that end corner
(0-based rows `0 .. refER`, columns `0 .. refEC`) — which contains the
label column when `labelCol ≤ refEC`, as it always does for the default
column A — yield identical block sequences: no cell outside that
rectangle is ever consulted. -/
theorem detectTableBlocks_extent (s1 s2 : Sheet) (labelCol : Nat)
    (hER : s1.refER = s2.refER) (hEC : s1.refEC = s2.refEC)
    (hcells : ∀ r c, r ≤ s1.refER → c ≤ s1.refEC → s1.cells r c = s2.cells r c)
    (hlc : labelCol ≤ s1.refEC) :
    detectTableBlocks s1 labelCol = detectTableBlocks s2 labelCol := by
  have hrow : ∀ row, 1 ≤ row → row ≤ s1.refER + 1 →
      analyzeRow s1 row (s1.refEC + 1) labelCol =
        analyzeRow s2 row (s1.refEC + 1) labelCol := by
    intro row h1 h2
    have hc1 : countOccupiedColumns s1 row (s1.refEC + 1) =
        countOccupiedColumns s2 row (s1.refEC + 1) := by
      unfold countOccupiedColumns
      apply List.countP_congr
      intro col hcol
      have hcle : col ≤ s1.refEC := by
        have := List.mem_range.mp hcol
        omega
      rw [hcells (row - 1) col (by omega) hcle]
    have hc2 : s1.cells (row - 1) labelCol = s2.cells (row - 1) labelCol :=
      hcells (row - 1) labelCol (by omega) hlc
    unfold analyzeRow
    rw [hc1, hc2]
  have hfold : ∀ (rows : List Nat), (∀ row ∈ rows, 1 ≤ row ∧ row ≤ s1.refER + 1) →
      ∀ (st : ScanState),
      rows.foldl (stepRow s1 labelCol (s1.refEC + 1)) st =
        rows.foldl (stepRow s2 labelCol (s1.refEC + 1)) st := by
    intro rows
    induction rows with
    | nil =>
      intro _ st
      rfl
    | cons a tl ih =>
      intro hmem st
      rw [List.foldl_cons, List.foldl_cons]
      have ha := hmem a (List.mem_cons_self a tl)
      have hstep : stepRow s1 labelCol (s1.refEC + 1) st a =
          stepRow s2 labelCol (s1.refEC + 1) st a := by
        unfold stepRow
        rw [hrow a ha.1 ha.2]
      rw [hstep]
      exact ih (fun r hr => hmem r (List.mem_cons_of_mem a hr)) _
  simp only [detectTableBlocks]
  rw [← hER, ← hEC]
  rw [hfold (List.range' 1 (s1.refER + 1)) (by
    intro row hr
    have := List.mem_range'_1.mp hr
    omega)]

/-- Witness for C8 (amended): adding a cell far outside the A1-to-end
rectangle does not change detection on `sampleSheet`. -/
theorem detectTableBlocks_extent_witness :
    detectTableBlocks sampleSheet 0 =
      detectTableBlocks
        { cells := fun r c =>
            if r = 9 && c = 9 then some ⟨some (.str "junk")⟩
            else sampleSheet.cells r c
          refSR := 0, refSC := 0, refER := 3, refEC := 1 } 0 := by
  apply detectTableBlocks_extent
  · rfl
  · rfl
  · intro r c hr hc
    have h9 : r ≠ 9 := by
      simp only [sampleSheet] at hr
      omega
    simp [h9]
  · simp [sampleSheet]
